import Mathlib

/-!
Shallow embedding of the classic2d-sandbox repository (TypeScript) for
verification of its specification claims.

Scalars (JS numbers) are modelled by an abstract type `A`: all claims under
verification concern counts, buffer indices, event ordering and list
structure, never floating-point values, so the embedding is parametric in
the scalar type.  Model matrices (`Mat4` from the external classic2d
package) are modelled either abstractly by a type `M` or, where their
construction matters, by the symbolic `Mat4` inductive below.  Side effects
on the WebGL / canvas context are modelled as explicit event lists returned
next to the updated state.
-/

namespace Classic2dSandbox

/-- classic2d `Vec2`: a pair of scalar coordinates. -/
structure Vec2 (A : Type) where
  x : A
  y : A
deriving DecidableEq

/-- classic2d `COLOR_COMPONENTS`: number of scalar components of a `Color`
(RGBA).  External constant of the physics-engine package. -/
def COLOR_COMPONENTS : Nat := 4

/-- A `Color` is indexed component-wise (the TS code reads `color[j]`). -/
def Color (A : Type) : Type := Nat → A

/-- Write into a `Float32Array` of capacity `max`: JS typed arrays silently
ignore out-of-range index writes. -/
def f32set {A : Type} (max : Nat) (arr : Nat → A) (i : Nat) (v : A) : Nat → A :=
  if i < max then Function.update arr i v else arr

/-- The inner color-write loop `for j in 0..COLOR_COMPONENTS-1:
colors[offset + j] = color[j]` shared by `RenderLine.addVertices` and
`RenderPoint.vertex`. -/
def writeColor {A : Type} (max : Nat) (arr : Nat → A) (off : Nat) (c : Color A) : Nat → A :=
  (List.range COLOR_COMPONENTS).foldl (fun a j => f32set max a (off + j) (c j)) arr

/-- One entry of `RenderLine.matrices`: a model matrix together with the
offset (in vertex pairs) and count (in vertices) of the buffered range it
applies to. -/
structure MatEntry (M : Type) where
  matrix : M
  offset : Nat
  count : Nat
deriving DecidableEq

/-- Observable WebGL effects of `RenderLine`: `upload` is one `flush` body
(buffer uploads plus one `drawElements` per matrix entry), `write` is one
scalar store into the vertex typed array. -/
inductive REv (A M : Type) where
  | upload (entries : List (MatEntry M)) (cnt : Nat)
  | write (i : Nat) (v : A)
deriving DecidableEq

namespace RenderLine

/-- `RenderLine.MAX_MATRICES = 512`. -/
def MAX_MATRICES : Nat := 512

/-- `RenderLine.MAX_VERTICES = MAX_MATRICES * 2 = 1024` scalar coordinates. -/
def MAX_VERTICES : Nat := MAX_MATRICES * 2

/-- `RenderLine.MAX_COLORS = MAX_MATRICES * 4`. -/
def MAX_COLORS : Nat := MAX_MATRICES * 4

/-- Mutable state of a `RenderLine`: the vertex and color typed arrays, the
scalar write cursor `count`, and the matrix entries recorded so far
(`matrices` up to `matricesCount`, modelled as a list of that length). -/
structure State (A M : Type) where
  vertices : Nat → A
  colors : Nat → A
  count : Nat
  matrices : List (MatEntry M)

/-- `RenderLine.flush`: early return when no matrix entry is recorded,
otherwise upload the buffers, replay the recorded draw ranges, and reset
`count` and `matricesCount` to 0. -/
def flush {A M : Type} (s : State A M) : State A M × List (REv A M) :=
  if s.matrices.length = 0 then (s, [])
  else ({ s with count := 0, matrices := [] }, [REv.upload s.matrices s.count])

/-- One iteration of the `RenderLine.addVertices` loop at loop index `i`:
when the buffer is at capacity, record the matrix entry for the vertices
written so far in this call (only when `i > 0`) and flush, resetting
`lastVertices` to the post-flush cursor; then store the two coordinates of
`p` and its color components.  Returns the state, the new `lastVertices`,
and the emitted effects. -/
def addVerticesStep {A M : Type} (matrix : M) (color : Color A) (p : Vec2 A)
    (i last : Nat) (s : State A M) : State A M × Nat × List (REv A M) :=
  let t :=
    if s.count = MAX_VERTICES then
      let sp :=
        if 0 < i then
          { s with matrices :=
              s.matrices ++ [⟨matrix, last / 2, (s.count - last) / 2⟩] }
        else s
      let fr := flush sp
      (fr.1, fr.1.count, fr.2)
    else (s, last, ([] : List (REv A M)))
  let s1 := t.1
  let s2 : State A M :=
    { s1 with vertices := f32set MAX_VERTICES s1.vertices s1.count p.x,
              count := s1.count + 1 }
  let s3 : State A M :=
    { s2 with vertices := f32set MAX_VERTICES s2.vertices s2.count p.y,
              count := s2.count + 1 }
  let off := (s3.count / 2 - 1) * COLOR_COMPONENTS
  let s4 : State A M := { s3 with colors := writeColor MAX_COLORS s3.colors off color }
  (s4, t.2.1, t.2.2 ++ [REv.write s1.count p.x, REv.write s2.count p.y])

/-- Loop of `RenderLine.addVertices` over the point list `ps`, carrying the
loop index `i` and the `lastVertices` cursor. -/
def addVerticesLoop {A M : Type} (matrix : M) (color : Color A) :
    List (Vec2 A) → Nat → Nat → State A M → State A M × Nat × List (REv A M)
  | [], _, last, s => (s, last, [])
  | p :: rest, i, last, s =>
    let t := addVerticesStep matrix color p i last s
    let r := addVerticesLoop matrix color rest (i + 1) t.2.1 t.1
    (r.1, r.2.1, t.2.2 ++ r.2.2)

/-- `RenderLine.addVertices(matrix, ps, color)`: run the loop starting from
`lastVertices = count`, then record the final matrix entry for the tail
range. -/
def addVertices {A M : Type} (matrix : M) (ps : List (Vec2 A)) (color : Color A)
    (s : State A M) : State A M × List (REv A M) :=
  let r := addVerticesLoop matrix color ps 0 s.count s
  ({ r.1 with matrices :=
      r.1.matrices ++ [⟨matrix, r.2.1 / 2, (r.1.count - r.2.1) / 2⟩] }, r.2.2)

/-- The public operations of `RenderLine`. -/
inductive Op (A M : Type) where
  | addVertices (matrix : M) (ps : List (Vec2 A)) (color : Color A)
  | flush

/-- Run one public operation. -/
def runOp {A M : Type} (s : State A M) : Op A M → State A M × List (REv A M)
  | Op.addVertices m ps c => addVertices m ps c s
  | Op.flush => flush s

/-- Run a sequence of public operations, concatenating emitted effects. -/
def runOps {A M : Type} (s : State A M) : List (Op A M) → State A M × List (REv A M)
  | [] => (s, [])
  | op :: ops =>
    let r := runOp s op
    let r2 := runOps r.1 ops
    (r2.1, r.2 ++ r2.2)

/-- Freshly constructed `RenderLine`: zero-initialised typed arrays, `count
= 0`, `matricesCount = 0`. -/
def init {A M : Type} (a0 : A) : State A M :=
  ⟨fun _ => a0, fun _ => a0, 0, []⟩

/-- Total vertex count recorded across a list of matrix entries. -/
def total {M : Type} (es : List (MatEntry M)) : Nat :=
  (es.map MatEntry.count).sum

/-- The matrix entries tile the buffer contiguously starting at vertex-pair
offset `o`: each entry starts where the previous one ended. -/
def chain {M : Type} : Nat → List (MatEntry M) → Prop
  | _, [] => True
  | o, e :: es => e.offset = o ∧ chain (o + e.count) es

/-- A `RenderLine` effect stays inside the typed-array capacity. -/
def REvBound {A M : Type} : REv A M → Prop
  | REv.write i _ => i < MAX_VERTICES
  | REv.upload _ _ => True

/-- State invariant of `RenderLine` between public calls: the write cursor
is an even number of scalars within capacity and the recorded matrix
entries tile exactly the buffered vertex pairs. -/
def Inv {A M : Type} (s : State A M) : Prop :=
  s.count ≤ MAX_VERTICES ∧ 2 ∣ s.count ∧ chain 0 s.matrices ∧
    total s.matrices = s.count / 2

/-- What the loop invariant asserts of the `(state, lastVertices, effects)`
triple carried by the `addVertices` loop. -/
def LoopGood {A M : Type} (r : State A M × Nat × List (REv A M)) : Prop :=
  r.1.count ≤ MAX_VERTICES ∧ 2 ∣ r.1.count ∧ 2 ∣ r.2.1 ∧ r.2.1 ≤ r.1.count ∧
    chain 0 r.1.matrices ∧ total r.1.matrices = r.2.1 / 2 ∧
    ∀ ev ∈ r.2.2, REvBound ev

end RenderLine

namespace RenderPoint

/-- `RenderPoint.MAX_VERTICES = 512` scalar coordinates. -/
def MAX_VERTICES : Nat := 512

/-- `RenderPoint.MAX_COLORS = MAX_VERTICES * 2`. -/
def MAX_COLORS : Nat := MAX_VERTICES * 2

/-- Mutable state of a `RenderPoint`: vertex and color typed arrays plus the
scalar write cursor `count`. -/
structure State (A : Type) where
  vertices : Nat → A
  colors : Nat → A
  count : Nat

/-- Observable WebGL effects of `RenderPoint`. -/
inductive PEv (A : Type) where
  | upload (cnt : Nat)
  | write (i : Nat) (v : A)
deriving DecidableEq

/-- `RenderPoint.flush`: early return when the buffer is empty, otherwise
upload, draw the points, and reset `count` to 0. -/
def flush {A : Type} (s : State A) : State A × List (PEv A) :=
  if s.count = 0 then (s, [])
  else ({ s with count := 0 }, [PEv.upload s.count])

/-- `RenderPoint.vertex(vertex, color)`: flush when the buffer is at
capacity, then store the two coordinates and the color components. -/
def vertex {A : Type} (v : Vec2 A) (color : Color A) (s : State A) :
    State A × List (PEv A) :=
  let t := if s.count = MAX_VERTICES then flush s else (s, [])
  let s1 := t.1
  let s2 : State A :=
    { s1 with vertices := f32set MAX_VERTICES s1.vertices s1.count v.x,
              count := s1.count + 1 }
  let s3 : State A :=
    { s2 with vertices := f32set MAX_VERTICES s2.vertices s2.count v.y,
              count := s2.count + 1 }
  let off := (s3.count / 2 - 1) * COLOR_COMPONENTS
  let s4 : State A := { s3 with colors := writeColor MAX_COLORS s3.colors off color }
  (s4, t.2 ++ [PEv.write s1.count v.x, PEv.write s2.count v.y])

/-- The public operations of `RenderPoint`. -/
inductive Op (A : Type) where
  | vertex (v : Vec2 A) (color : Color A)
  | flush

/-- Run one public operation. -/
def runOp {A : Type} (s : State A) : Op A → State A × List (PEv A)
  | Op.vertex v c => vertex v c s
  | Op.flush => flush s

/-- Run a sequence of public operations. -/
def runOps {A : Type} (s : State A) : List (Op A) → State A × List (PEv A)
  | [] => (s, [])
  | op :: ops =>
    let r := runOp s op
    let r2 := runOps r.1 ops
    (r2.1, r.2 ++ r2.2)

/-- Freshly constructed `RenderPoint`. -/
def init {A : Type} (a0 : A) : State A :=
  ⟨fun _ => a0, fun _ => a0, 0⟩

/-- A `RenderPoint` effect stays inside the typed-array capacity. -/
def PEvBound {A : Type} : PEv A → Prop
  | PEv.write i _ => i < MAX_VERTICES
  | PEv.upload _ => True

/-- State invariant of `RenderPoint` between public calls. -/
def Inv {A : Type} (s : State A) : Prop :=
  s.count ≤ MAX_VERTICES ∧ 2 ∣ s.count

end RenderPoint

namespace RenderText

/-- Mutable state of a `RenderText`: font size, the running `yOffset` used
by `print`, and the pending text records. -/
structure State (A : Type) where
  size : A
  yOffset : A
  texts : List (String × A × A)

/-- Observable canvas effects of `RenderText.flush`. -/
inductive TEv (A : Type) where
  | clearRect
  | fillText (text : String) (x : A) (y : A)

/-- `RenderText.fill(text, x, y)`: push one pending text record. -/
def fill {A : Type} (text : String) (x y : A) (s : State A) : State A :=
  { s with texts := s.texts ++ [(text, x, y)] }

/-- `RenderText.print(text)`: fill at `(0, yOffset)` and advance `yOffset`
by the font size. -/
def print {A : Type} [Zero A] [Add A] (text : String) (s : State A) : State A :=
  let s1 := fill text 0 s.yOffset s
  { s1 with yOffset := s1.yOffset + s1.size }

/-- `RenderText.flush`: clear the 2d canvas, draw every pending text, then
empty the pending list and reset `yOffset` to 0. -/
def flush {A : Type} [Zero A] (s : State A) : State A × List (TEv A) :=
  ({ s with texts := [], yOffset := 0 },
   TEv.clearRect :: s.texts.map (fun t => TEv.fillText t.1 t.2.1 t.2.2))

end RenderText

/-! ### Shader initialisation (`initShaderProgram` / `loadShader`) -/

/-- WebGL enum `gl.VERTEX_SHADER`. -/
def VERTEX_SHADER : Nat := 35633

/-- WebGL enum `gl.FRAGMENT_SHADER`. -/
def FRAGMENT_SHADER : Nat := 35632

/-- Oracle model of the WebGL rendering context for shader setup: `Sh` and
`Pr` are the handle types for shaders and programs; `compileStatus` is the
value of `getShaderParameter(shader, COMPILE_STATUS)` after the shader got
the given source and was compiled; `linkStatus` is the value of
`getProgramParameter(program, LINK_STATUS)` after attaching the two (possibly
null) shaders and linking. -/
structure WebGL (Sh Pr : Type) where
  createShader : Nat → Sh
  compileStatus : Sh → String → Bool
  shaderInfoLog : Sh → String
  createProgram : Pr
  linkStatus : Pr → Option Sh → Option Sh → Bool
  programInfoLog : Pr → String

/-- Observable effects of shader setup: console logging and GL object
manipulation. -/
inductive GLEv (Sh Pr : Type) where
  | consoleError (msg : String)
  | deleteShader (sh : Sh)
  | attachShader (pr : Pr) (sh : Option Sh)
  | linkProgram (pr : Pr)

/-- `loadShader(gl, type, source)`: create the shader, set its source and
compile; on compile failure log, delete the shader and return null,
otherwise return the shader. -/
def loadShader {Sh Pr : Type} (gl : WebGL Sh Pr) (ty : Nat) (source : String) :
    Option Sh × List (GLEv Sh Pr) :=
  let shader := gl.createShader ty
  if gl.compileStatus shader source then (some shader, [])
  else
    (none,
     [GLEv.consoleError
        ("An error occurred compiling the shaders: " ++ gl.shaderInfoLog shader),
      GLEv.deleteShader shader])

/-- `initShaderProgram(gl, vsSource, fsSource)`: load both shaders, attach
them to a fresh program and link; on link failure log and return null,
otherwise return the program. -/
def initShaderProgram {Sh Pr : Type} (gl : WebGL Sh Pr) (vsSource fsSource : String) :
    Option Pr × List (GLEv Sh Pr) :=
  let vs := loadShader gl VERTEX_SHADER vsSource
  let fs := loadShader gl FRAGMENT_SHADER fsSource
  let pr := gl.createProgram
  let evs := vs.2 ++ fs.2 ++
    [GLEv.attachShader pr vs.1, GLEv.attachShader pr fs.1, GLEv.linkProgram pr]
  if gl.linkStatus pr vs.1 fs.1 then (some pr, evs)
  else
    (none,
     evs ++ [GLEv.consoleError
       ("Unable to initialize the shader program: " ++ gl.programInfoLog pr)])

/-! ### `Test` (src/src/test.ts) -/

/-- classic2d `Contact`, reduced to the fields `Test` reads: the two body
references and the contact point returned by `getPoint()`. -/
structure Contact (B P : Type) where
  bodyA : B
  bodyB : B
  point : P

/-- Mutable state of a `Test`: pause flag, pending-single-step flag, and the
buffered contact list.  The `frameTimeMovingAverage` used only to format the
FPS help text is display-only floating-point state and is abstracted into
the `drawHelp` event. -/
structure TestState (B P : Type) where
  isPause : Bool
  shouldMakeStep : Bool
  contacts : List (Contact B P)

/-- Observable effects of `Test` on the world, the debug draw and the
forwarded contact listener. -/
inductive TestEv (B P : Type) where
  | worldStep (t : Int)
  | listenerBegin (bodyA bodyB : B)
  | drawDebugData
  | drawHelp (t : Int)
  | debugFlush
  | drawPoint (p : P)

namespace Test

/-- `Test.hasContact(contact)`: linear scan for an entry with the same
`bodyA` and `bodyB` references. -/
def hasContact {B P : Type} [DecidableEq B] (contacts : List (Contact B P))
    (c : Contact B P) : Bool :=
  contacts.any fun x => decide (x.bodyA = c.bodyA) && decide (x.bodyB = c.bodyB)

/-- `Test.beginContact(contact)`: buffer the contact unless an equal body
pair is already buffered; always forward to the optional contact
listener. -/
def beginContact {B P : Type} [DecidableEq B] (hasListener : Bool)
    (c : Contact B P) (s : TestState B P) : TestState B P × List (TestEv B P) :=
  let s1 := if hasContact s.contacts c then s
            else { s with contacts := s.contacts ++ [c] }
  (s1, if hasListener then [TestEv.listenerBegin c.bodyA c.bodyB] else [])

/-- `Test.makeStep()`: request one world step for the paused mode. -/
def makeStep {B P : Type} (s : TestState B P) : TestState B P :=
  { s with shouldMakeStep := true }

/-- `Test.pause(isPause = !this.isPause)`: set or toggle the pause flag. -/
def pause {B P : Type} (b : Option Bool) (s : TestState B P) : TestState B P :=
  { s with isPause := b.getD (!s.isPause) }

/-- `Test.step(time)`: advance the world unless paused without a pending
single step; afterwards clear the pending flag. -/
def step {B P : Type} (t : Int) (s : TestState B P) :
    TestState B P × List (TestEv B P) :=
  if !s.isPause || s.shouldMakeStep then
    ({ s with shouldMakeStep := false }, [TestEv.worldStep t])
  else (s, [])

/-- `Test.draw(time)`: draw the world debug data and the help overlay, flush
the debug draw, draw the buffered contact points, then clear the contact
list. -/
def draw {B P : Type} (t : Int) (s : TestState B P) :
    TestState B P × List (TestEv B P) :=
  ({ s with contacts := [] },
   TestEv.drawDebugData :: TestEv.drawHelp t :: TestEv.debugFlush ::
     s.contacts.map (fun c => TestEv.drawPoint c.point))

/-- The public operations of `Test` relevant to the claims. -/
inductive Op (B P : Type) where
  | makeStep
  | pause (b : Option Bool)
  | step (t : Int)
  | beginContact (c : Contact B P)
  | draw (t : Int)

/-- Run one `Test` operation. -/
def runOp {B P : Type} [DecidableEq B] (hasListener : Bool) (s : TestState B P) :
    Op B P → TestState B P × List (TestEv B P)
  | Op.makeStep => (makeStep s, [])
  | Op.pause b => (pause b s, [])
  | Op.step t => step t s
  | Op.beginContact c => beginContact hasListener c s
  | Op.draw t => draw t s

/-- Run a sequence of `Test` operations. -/
def runOps {B P : Type} [DecidableEq B] (hasListener : Bool) (s : TestState B P) :
    List (Op B P) → TestState B P × List (TestEv B P)
  | [] => (s, [])
  | op :: ops =>
    let r := runOp hasListener s op
    let r2 := runOps hasListener r.1 ops
    (r2.1, r.2 ++ r2.2)

/-- State of a freshly constructed `Test`: not paused, no pending step, and
`clearContacts()` has emptied the contact list. -/
def init {B P : Type} : TestState B P :=
  ⟨false, false, []⟩

/-- Number of world steps performed by `step` operations issued while the
test was paused. -/
def pausedWorldSteps {B P : Type} [DecidableEq B] (hasListener : Bool)
    (s : TestState B P) : List (Op B P) → Nat
  | [] => 0
  | op :: ops =>
    (match op with
     | Op.step t => if s.isPause then (step t s).2.length else 0
     | _ => 0) +
    pausedWorldSteps hasListener (runOp hasListener s op).1 ops

/-- Number of `makeStep` operations in a sequence. -/
def makeStepCount {B P : Type} : List (Op B P) → Nat
  | [] => 0
  | Op.makeStep :: ops => makeStepCount ops + 1
  | _ :: ops => makeStepCount ops

/-- No two buffered contacts share the same `(bodyA, bodyB)` pair. -/
def PairwiseContacts {B P : Type} (cs : List (Contact B P)) : Prop :=
  List.Pairwise (fun a b => ¬(a.bodyA = b.bodyA ∧ a.bodyB = b.bodyB)) cs

end Test

/-! ### `Sandbox` (src/src/index.ts) -/

/-- Mutable state of a `Sandbox` relevant to the render loop: the `past`
timestamp, the `running` flag, and the owned `Test`. -/
structure SandboxState (B P : Type) where
  past : Int
  running : Bool
  test : TestState B P

/-- Observable effects of the `Sandbox` render loop. -/
inductive SEv where
  | preStep (t : Int)
  | testStep (t : Int)
  | postStep
  | clearFrame
  | testDraw (t : Int)
  | requestFrame
deriving DecidableEq

namespace Sandbox

/-- `Sandbox.render(now)`: return immediately when not running; otherwise
run the optional `preStep` action with `now`, compute the elapsed time as
`now - past` and set `past := now`, step the test, run the optional
`postStep` action, clear the frame, draw the test, and request the next
animation frame. -/
def render {B P : Type} (hasPre hasPost : Bool) (now : Int)
    (s : SandboxState B P) : SandboxState B P × List SEv :=
  if !s.running then (s, [])
  else
    let e1 : List SEv := if hasPre then [SEv.preStep now] else []
    let time := now - s.past
    let s1 := { s with past := now }
    let s2 := { s1 with test := (Test.step time s1.test).1 }
    let e2 : List SEv := if hasPost then [SEv.postStep] else []
    let s3 := { s2 with test := (Test.draw time s2.test).1 }
    (s3, e1 ++ SEv.testStep time :: e2 ++ [SEv.clearFrame, SEv.testDraw time, SEv.requestFrame])

/-- `Sandbox.run()`: set `running` and request an animation frame. -/
def run {B P : Type} (s : SandboxState B P) : SandboxState B P × List SEv :=
  ({ s with running := true }, [SEv.requestFrame])

/-- `Sandbox.stop()`: clear `running`. -/
def stop {B P : Type} (s : SandboxState B P) : SandboxState B P :=
  { s with running := false }

/-- A sequence of browser animation-frame callbacks with the given
timestamps. -/
def renderSeq {B P : Type} (hasPre hasPost : Bool) :
    List Int → SandboxState B P → SandboxState B P × List SEv
  | [], s => (s, [])
  | n :: ns, s =>
    let r := render hasPre hasPost n s
    let r2 := renderSeq hasPre hasPost ns r.1
    (r2.1, r.2 ++ r2.2)

end Sandbox

/-! ### `DebugDraw.drawCircle` -/

/-- Symbolic model of classic2d `Mat4` construction as used by
`DebugDraw.drawCircle`: `new Mat4().translate(x, y).rotate(angle)
.scale(sx, sy, sz)`. -/
inductive Mat4 (A : Type) where
  | new
  | translate (m : Mat4 A) (x y : A)
  | rotate (m : Mat4 A) (angle : A)
  | scale (m : Mat4 A) (sx sy sz : A)
deriving DecidableEq

namespace DebugDraw

/-- `DebugDraw.CIRCLE_SEGMENT = 32`. -/
def CIRCLE_SEGMENT : Nat := 32

/-- The loop of `drawCircle` for the remaining `fuel` iterations: at loop
index `i` compute `fi = 2 * pi / CIRCLE_SEGMENT * i + pi / 2`, push the
carried point `p1` and the new point `p2`, and continue with `p1 = p2`
(`copy()` duplicates the coordinates). -/
def circleSegs {A : Type} [Field A] (c s : A → A) (pi : A) :
    Vec2 A → Nat → Nat → List (Vec2 A)
  | _, _, 0 => []
  | p1, i, fuel + 1 =>
    let fi := 2 * pi / (CIRCLE_SEGMENT : A) * (i : A) + pi / 2
    let p2 : Vec2 A := ⟨c fi, s fi⟩
    p1 :: p2 :: circleSegs c s pi p2 (i + 1) fuel

/-- The perimeter point of index `j`: the loop seed for `j = 0` (computed
directly from `f = pi / 2`) and the loop value otherwise. -/
def circlePoint {A : Type} [Field A] (c s : A → A) (pi : A) : Nat → Vec2 A
  | 0 => ⟨c (pi / 2), s (pi / 2)⟩
  | Nat.succ j =>
    ⟨c (2 * pi / (CIRCLE_SEGMENT : A) * ((Nat.succ j : Nat) : A) + pi / 2),
     s (2 * pi / (CIRCLE_SEGMENT : A) * ((Nat.succ j : Nat) : A) + pi / 2)⟩

/-- The chord list of the circle outline: for each of the `n` segments, the
pair of consecutive perimeter points. -/
def chordList {A : Type} [Field A] (c s : A → A) (pi : A) (n : Nat) : List (Vec2 A) :=
  (List.range n).flatMap fun k => [circlePoint c s pi k, circlePoint c s pi (k + 1)]

/-- `DebugDraw.drawCircle(position, angle, radius, color)` acting on the
owned `RenderLine`: build the model matrix, build the perimeter point list,
then buffer the radius line `[new Vec2(), ps[0]]` followed by the chord
list `ps`. -/
def drawCircle {A : Type} [Field A] (c s : A → A) (pi : A)
    (position : Vec2 A) (angle radius : A) (color : Color A)
    (lines : RenderLine.State A (Mat4 A)) :
    RenderLine.State A (Mat4 A) × List (REv A (Mat4 A)) :=
  let matrix := Mat4.scale (Mat4.rotate (Mat4.translate Mat4.new position.x position.y) angle)
    radius radius 1
  let f := pi / 2
  let p1 : Vec2 A := ⟨c f, s f⟩
  let ps := circleSegs c s pi p1 1 CIRCLE_SEGMENT
  let r1 := RenderLine.addVertices matrix [⟨0, 0⟩, ps.headD ⟨0, 0⟩] color lines
  let r2 := RenderLine.addVertices matrix ps color r1.1
  (r2.1, r1.2 ++ r2.2)

end DebugDraw

/-- The write events for a list of vertices stored starting at scalar index
`i`: two scalar stores per vertex at consecutive indices. -/
def writeEvents {A M : Type} : Nat → List (Vec2 A) → List (REv A M)
  | _, [] => []
  | i, p :: ps => REv.write i p.x :: REv.write (i + 1) p.y :: writeEvents (i + 2) ps

/-! ### Invariants of the `RenderLine` batching buffers -/

namespace RenderLine

theorem total_append {M : Type} (es : List (MatEntry M)) (e : MatEntry M) :
    total (es ++ [e]) = total es + e.count := by
  simp [total]

theorem chain_append {M : Type} (es : List (MatEntry M)) (m : M) (n : Nat) :
    ∀ o, chain o es → chain o (es ++ [⟨m, o + total es, n⟩]) := by
  induction es with
  | nil => intro o _; simp [chain, total]
  | cons e es ih =>
    intro o h
    obtain ⟨h1, h2⟩ := h
    refine ⟨h1, ?_⟩
    have := ih (o + e.count) h2
    simpa [total, Nat.add_assoc] using this

theorem chain_entry_le {M : Type} (es : List (MatEntry M)) :
    ∀ o, chain o es → ∀ e ∈ es, o ≤ e.offset ∧ e.offset + e.count ≤ o + total es := by
  induction es with
  | nil => intro o _ e he; simp at he
  | cons a es ih =>
    intro o h e he
    obtain ⟨h1, h2⟩ := h
    have ht : total (a :: es) = a.count + total es := by simp [total]
    rcases List.mem_cons.mp he with rfl | he
    · exact ⟨by omega, by omega⟩
    · have hrec := ih (o + a.count) h2 e he
      exact ⟨by omega, by omega⟩

theorem flush_inv {A M : Type} (s : State A M) (h : Inv s) :
    Inv (flush s).1 ∧ ∀ ev ∈ (flush s).2, REvBound ev := by
  unfold flush
  by_cases hm : s.matrices.length = 0
  · simp only [hm, if_pos rfl]
    exact ⟨h, by intro ev hev; simp at hev⟩
  · simp only [if_neg hm]
    refine ⟨⟨by simp [MAX_VERTICES, MAX_MATRICES], by simp, trivial, by simp [total, chain]⟩, ?_⟩
    intro ev hev
    simp at hev
    subst hev
    trivial

/-- When the invariant holds and no matrix entry is recorded, the buffer is
empty: this is what makes the early return of `flush` harmless. -/
theorem inv_matrices_nil {A M : Type} (s : State A M) (h : Inv s)
    (hm : s.matrices = []) : s.count = 0 := by
  obtain ⟨-, h2, -, h4⟩ := h
  rw [hm] at h4
  simp [total] at h4
  omega

/-- One loop iteration preserves the loop invariant. -/
theorem addVerticesStep_spec {A M : Type} (matrix : M) (color : Color A)
    (p : Vec2 A) (i last : Nat) (s : State A M)
    (hc : s.count ≤ MAX_VERTICES) (h2c : 2 ∣ s.count) (h2l : 2 ∣ last)
    (hls : last ≤ s.count) (hch : chain 0 s.matrices)
    (htot : total s.matrices = last / 2) (hi : i = 0 → last = s.count) :
    LoopGood (addVerticesStep matrix color p i last s) := by
  have hMV : MAX_VERTICES = 1024 := by simp [MAX_VERTICES, MAX_MATRICES]
  unfold addVerticesStep LoopGood
  by_cases hmax : s.count = MAX_VERTICES
  · simp only [if_pos hmax]
    by_cases hipos : 0 < i
    · simp only [if_pos hipos, flush, List.length_append, List.length_cons,
        List.length_nil, Nat.add_eq_zero, and_false, if_false, Nat.zero_add,
        one_ne_zero, if_neg]
      refine ⟨by omega, by omega, by omega, by omega, trivial, by simp [total], ?_⟩
      intro ev hev
      simp only [List.mem_append, List.mem_cons, List.not_mem_nil, or_false] at hev
      rcases hev with hev | hev | hev
      · subst hev; trivial
      · subst hev; show (0 : Nat) < MAX_VERTICES; omega
      · subst hev; show (0 + 1 : Nat) < MAX_VERTICES; omega
    · simp only [if_neg hipos]
      have hi0 : i = 0 := by omega
      have hlast : last = s.count := hi hi0
      have hne : ¬s.matrices.length = 0 := by
        intro h0
        have hm : s.matrices = [] := List.length_eq_zero.mp h0
        rw [hm] at htot
        simp only [total, List.map_nil, List.sum_nil] at htot
        omega
      simp only [flush, if_neg hne]
      refine ⟨by omega, by omega, by omega, by omega, trivial, by simp [total], ?_⟩
      intro ev hev
      simp only [List.mem_append, List.mem_cons, List.not_mem_nil, or_false] at hev
      rcases hev with hev | hev | hev
      · subst hev; trivial
      · subst hev; show (0 : Nat) < MAX_VERTICES; omega
      · subst hev; show (0 + 1 : Nat) < MAX_VERTICES; omega
  · simp only [if_neg hmax]
    have h2M : (2 : Nat) ∣ MAX_VERTICES := by omega
    refine ⟨by omega, by omega, h2l, by omega, hch, htot, ?_⟩
    intro ev hev
    simp only [List.nil_append, List.mem_cons, List.not_mem_nil, or_false] at hev
    rcases hev with hev | hev
    · subst hev; show s.count < MAX_VERTICES; omega
    · subst hev; show s.count + 1 < MAX_VERTICES; omega

/-- The `addVertices` loop preserves the loop invariant. -/
theorem addVerticesLoop_spec {A M : Type} (matrix : M) (color : Color A)
    (ps : List (Vec2 A)) :
    ∀ (i last : Nat) (s : State A M),
      s.count ≤ MAX_VERTICES → 2 ∣ s.count → 2 ∣ last → last ≤ s.count →
      chain 0 s.matrices → total s.matrices = last / 2 →
      (i = 0 → last = s.count) →
      LoopGood (addVerticesLoop matrix color ps i last s) := by
  induction ps with
  | nil =>
    intro i last s hc h2c h2l hls hch htot hi
    simp only [addVerticesLoop]
    exact ⟨hc, h2c, h2l, hls, hch, htot, by intro ev hev; simp at hev⟩
  | cons p rest ih =>
    intro i last s hc h2c h2l hls hch htot hi
    simp only [addVerticesLoop]
    obtain ⟨g1, g2, g3, g4, g5, g6, g7⟩ :=
      addVerticesStep_spec matrix color p i last s hc h2c h2l hls hch htot hi
    obtain ⟨k1, k2, k3, k4, k5, k6, k7⟩ :=
      ih (i + 1) (addVerticesStep matrix color p i last s).2.1
        (addVerticesStep matrix color p i last s).1 g1 g2 g3 g4 g5 g6 (by omega)
    refine ⟨k1, k2, k3, k4, k5, k6, ?_⟩
    intro ev hev
    simp only [List.mem_append] at hev
    rcases hev with hev | hev
    · exact g7 ev hev
    · exact k7 ev hev

/-- `addVertices` preserves the state invariant and emits only in-bounds
effects. -/
theorem addVertices_spec {A M : Type} (matrix : M) (ps : List (Vec2 A))
    (color : Color A) (s : State A M) (h : Inv s) :
    Inv (addVertices matrix ps color s).1 ∧
      ∀ ev ∈ (addVertices matrix ps color s).2, REvBound ev := by
  obtain ⟨h1, h2, h3, h4⟩ := h
  obtain ⟨g1, g2, g3, g4, g5, g6, g7⟩ :=
    addVerticesLoop_spec matrix color ps 0 s.count s h1 h2 h2 (le_refl _) h3 h4
      (fun _ => rfl)
  unfold addVertices
  refine ⟨⟨g1, g2, ?_, ?_⟩, g7⟩
  · have hoff : (addVerticesLoop matrix color ps 0 s.count s).2.1 / 2 =
        0 + total (addVerticesLoop matrix color ps 0 s.count s).1.matrices := by
      omega
    simp only [hoff]
    exact chain_append _ matrix _ 0 g5
  · rw [total_append]
    simp only []
    omega

/-- `flush` may be called at any time and restores the invariant. -/
theorem runOp_spec {A M : Type} (s : State A M) (h : Inv s) (op : Op A M) :
    Inv (runOp s op).1 ∧ ∀ ev ∈ (runOp s op).2, REvBound ev := by
  cases op with
  | addVertices m ps c => exact addVertices_spec m ps c s h
  | flush => exact flush_inv s h

/-- Every state reachable by public calls from a fresh `RenderLine`
satisfies the invariant, and every emitted effect is in bounds. -/
theorem runOps_spec {A M : Type} :
    ∀ (ops : List (Op A M)) (s : State A M), Inv s →
      Inv (runOps s ops).1 ∧ ∀ ev ∈ (runOps s ops).2, REvBound ev := by
  intro ops
  induction ops with
  | nil =>
    intro s h
    exact ⟨h, by intro ev hev; simp [runOps] at hev⟩
  | cons op ops ih =>
    intro s h
    obtain ⟨g1, g2⟩ := runOp_spec s h op
    obtain ⟨k1, k2⟩ := ih (runOp s op).1 g1
    refine ⟨k1, ?_⟩
    intro ev hev
    simp only [runOps, List.mem_append] at hev
    rcases hev with hev | hev
    · exact g2 ev hev
    · exact k2 ev hev

/-- The fresh `RenderLine` state satisfies the invariant. -/
theorem init_inv {A M : Type} (a0 : A) : Inv (init a0 : State A M) :=
  ⟨by simp [init, MAX_VERTICES, MAX_MATRICES], by simp [init], trivial,
   by simp [init, total]⟩

/-- When the buffer is at capacity and at least one vertex is to be
written, `addVertices` flushes before any write: its first emitted effect
is the upload of the recorded entries. -/
theorem addVertices_flush_first {A M : Type} (matrix : M) (p : Vec2 A)
    (ps : List (Vec2 A)) (color : Color A) (s : State A M) (h : Inv s)
    (hmax : s.count = MAX_VERTICES) :
    (addVertices matrix (p :: ps) color s).2.head? =
      some (REv.upload s.matrices s.count) := by
  obtain ⟨h1, h2, h3, h4⟩ := h
  have hne : ¬s.matrices.length = 0 := by
    intro h0
    have hm : s.matrices = [] := List.length_eq_zero.mp h0
    rw [hm] at h4
    simp only [total, List.map_nil, List.sum_nil] at h4
    rw [hmax] at h4
    simp [MAX_VERTICES, MAX_MATRICES] at h4
  simp only [addVertices, addVerticesLoop, addVerticesStep, if_pos hmax,
    lt_irrefl, if_false, flush]
  rw [if_neg hne]
  simp

end RenderLine

/-! ### Invariants of the `RenderPoint` buffer -/

namespace RenderPoint

theorem flush_point_inv {A : Type} (s : State A) (h : Inv s) :
    Inv (flush s).1 ∧ ∀ ev ∈ (flush s).2, PEvBound ev := by
  unfold flush
  by_cases h0 : s.count = 0
  · simp only [if_pos h0]
    exact ⟨h, by intro ev hev; simp at hev⟩
  · simp only [if_neg h0]
    refine ⟨⟨by simp [MAX_VERTICES], by simp⟩, ?_⟩
    intro ev hev
    simp only [List.mem_singleton] at hev
    subst hev
    trivial

theorem vertex_spec {A : Type} (v : Vec2 A) (color : Color A) (s : State A)
    (h : Inv s) :
    Inv (vertex v color s).1 ∧ ∀ ev ∈ (vertex v color s).2, PEvBound ev := by
  obtain ⟨h1, h2⟩ := h
  have hMV : MAX_VERTICES = 512 := by simp [MAX_VERTICES]
  unfold vertex
  by_cases hmax : s.count = MAX_VERTICES
  · have hne : ¬s.count = 0 := by omega
    simp only [if_pos hmax, flush, if_neg hne]
    refine ⟨⟨?_, ?_⟩, ?_⟩
    · show 0 + 1 + 1 ≤ MAX_VERTICES
      omega
    · show 2 ∣ 0 + 1 + 1
      omega
    · intro ev hev
      simp only [List.nil_append, List.mem_append, List.mem_cons,
        List.not_mem_nil, or_false, List.mem_singleton] at hev
      rcases hev with hev | hev | hev
      · subst hev; trivial
      · subst hev; show (0 : Nat) < MAX_VERTICES; omega
      · subst hev; show (0 + 1 : Nat) < MAX_VERTICES; omega
  · simp only [if_neg hmax]
    have h2M : (2 : Nat) ∣ MAX_VERTICES := by omega
    refine ⟨⟨?_, ?_⟩, ?_⟩
    · show s.count + 1 + 1 ≤ MAX_VERTICES
      omega
    · show 2 ∣ s.count + 1 + 1
      omega
    · intro ev hev
      simp only [List.nil_append, List.mem_cons, List.not_mem_nil, or_false] at hev
      rcases hev with hev | hev
      · subst hev; show s.count < MAX_VERTICES; omega
      · subst hev; show s.count + 1 < MAX_VERTICES; omega

theorem runOp_point_spec {A : Type} (s : State A) (h : Inv s) (op : Op A) :
    Inv (runOp s op).1 ∧ ∀ ev ∈ (runOp s op).2, PEvBound ev := by
  cases op with
  | vertex v c => exact vertex_spec v c s h
  | flush => exact flush_point_inv s h

theorem runOps_point_spec {A : Type} :
    ∀ (ops : List (Op A)) (s : State A), Inv s →
      Inv (runOps s ops).1 ∧ ∀ ev ∈ (runOps s ops).2, PEvBound ev := by
  intro ops
  induction ops with
  | nil =>
    intro s h
    exact ⟨h, by intro ev hev; simp [runOps] at hev⟩
  | cons op ops ih =>
    intro s h
    obtain ⟨g1, g2⟩ := runOp_point_spec s h op
    obtain ⟨k1, k2⟩ := ih (runOp s op).1 g1
    refine ⟨k1, ?_⟩
    intro ev hev
    simp only [runOps, List.mem_append] at hev
    rcases hev with hev | hev
    · exact g2 ev hev
    · exact k2 ev hev

theorem init_point_inv {A : Type} (a0 : A) : Inv (init a0 : State A) :=
  ⟨by simp [init, MAX_VERTICES], by simp [init]⟩

/-- When the buffer is at capacity, `vertex` flushes before writing: its
first emitted effect is the upload. -/
theorem vertex_flush_first {A : Type} (v : Vec2 A) (color : Color A)
    (s : State A) (hmax : s.count = MAX_VERTICES) :
    (vertex v color s).2.head? = some (PEv.upload s.count) := by
  have hne : ¬s.count = 0 := by rw [hmax]; simp [MAX_VERTICES]
  simp only [vertex, if_pos hmax, flush, if_neg hne]
  simp

end RenderPoint

/-! ### Invariants of `Test` -/

namespace Test

theorem beginContact_pairwise {B P : Type} [DecidableEq B] (hl : Bool)
    (c : Contact B P) (s : TestState B P) (h : PairwiseContacts s.contacts) :
    PairwiseContacts (beginContact hl c s).1.contacts := by
  unfold beginContact
  by_cases hc : hasContact s.contacts c
  · simp only [if_pos hc]
    exact h
  · simp only [if_neg hc]
    refine List.pairwise_append.mpr ⟨h, List.pairwise_singleton _ _, ?_⟩
    intro a ha b hb
    simp only [List.mem_singleton] at hb
    subst hb
    intro hab
    apply hc
    unfold hasContact
    rw [List.any_eq_true]
    refine ⟨a, ha, ?_⟩
    simp [hab.1, hab.2]

theorem runOp_pairwise {B P : Type} [DecidableEq B] (hl : Bool)
    (s : TestState B P) (op : Op B P) (h : PairwiseContacts s.contacts) :
    PairwiseContacts (runOp hl s op).1.contacts := by
  cases op with
  | makeStep => exact h
  | pause b => exact h
  | step t =>
    unfold runOp step
    by_cases hcond : (!s.isPause || s.shouldMakeStep) = true
    · simp only [if_pos hcond]
      exact h
    · simp only [if_neg hcond]
      exact h
  | beginContact c => exact beginContact_pairwise hl c s h
  | draw t =>
    show PairwiseContacts ([] : List (Contact B P))
    exact List.Pairwise.nil

theorem runOps_pairwise {B P : Type} [DecidableEq B] (hl : Bool) :
    ∀ (ops : List (Op B P)) (s : TestState B P), PairwiseContacts s.contacts →
      PairwiseContacts (runOps hl s ops).1.contacts := by
  intro ops
  induction ops with
  | nil => intro s h; exact h
  | cons op ops ih =>
    intro s h
    exact ih (runOp hl s op).1 (runOp_pairwise hl s op h)

/-- The counting bound behind single-step semantics: the number of world
steps taken while paused never exceeds the number of `makeStep` requests,
accounting for one possibly pending request. -/
theorem pausedWorldSteps_bound {B P : Type} [DecidableEq B] (hl : Bool) :
    ∀ (ops : List (Op B P)) (s : TestState B P),
      pausedWorldSteps hl s ops ≤
        makeStepCount ops + (if s.shouldMakeStep then 1 else 0) := by
  intro ops
  induction ops with
  | nil =>
    intro s
    simp [pausedWorldSteps]
  | cons op ops ih =>
    intro s
    cases op with
    | makeStep =>
      have h := ih (runOp hl s Op.makeStep).1
      simp only [runOp, makeStep] at h
      simp only [pausedWorldSteps, makeStepCount, runOp, makeStep]
      simp at h
      simp
      omega
    | pause b =>
      have h := ih (runOp hl s (Op.pause b)).1
      simp only [runOp, pause] at h
      simp only [pausedWorldSteps, makeStepCount, runOp, pause]
      simp at h ⊢
      omega
    | beginContact c =>
      have h := ih (runOp hl s (Op.beginContact c)).1
      have hfl : (runOp hl s (Op.beginContact c)).1.shouldMakeStep = s.shouldMakeStep := by
        unfold runOp beginContact
        by_cases hc : hasContact s.contacts c
        · simp only [if_pos hc]
        · simp only [if_neg hc]
      rw [hfl] at h
      simp only [pausedWorldSteps, makeStepCount]
      omega
    | draw t =>
      have h := ih (runOp hl s (Op.draw t)).1
      simp only [runOp, draw] at h
      simp only [pausedWorldSteps, makeStepCount, runOp, draw]
      simp at h ⊢
      omega
    | step t =>
      have h := ih (runOp hl s (Op.step t)).1
      simp only [runOp] at h
      simp only [pausedWorldSteps, makeStepCount, runOp]
      cases hp : s.isPause with
      | false =>
        have hs : step t s = ({ s with shouldMakeStep := false }, [TestEv.worldStep t]) := by
          unfold step
          rw [hp]
          simp
        simp only [hs] at h ⊢
        simp at h ⊢
        omega
      | true =>
        cases hm : s.shouldMakeStep with
        | true =>
          have hs : step t s = ({ s with shouldMakeStep := false }, [TestEv.worldStep t]) := by
            unfold step
            rw [hp, hm]
            simp
          simp only [hs] at h ⊢
          simp [hm] at h ⊢
          omega
        | false =>
          have hs : step t s = (s, []) := by
            unfold step
            rw [hp, hm]
            simp
          simp only [hs] at h ⊢
          simp [hm] at h ⊢
          omega

end Test

/-! ### Further helper lemmas -/

namespace RenderLine

/-- Under the invariant, `flush` leaves the buffer and the entry list empty
in both branches. -/
theorem flush_clears {A M : Type} (s : State A M) (h : Inv s) :
    (flush s).1.count = 0 ∧ (flush s).1.matrices = [] := by
  unfold flush
  by_cases hm : s.matrices.length = 0
  · have hmn : s.matrices = [] := List.length_eq_zero.mp hm
    have hc0 : s.count = 0 := inv_matrices_nil s h hmn
    simp [hm, hmn, hc0]
  · simp [hm]

end RenderLine

namespace Sandbox

/-- A render callback on a non-running sandbox is a no-op. -/
theorem render_stopped {B P : Type} (hp hpo : Bool) (now : Int)
    (s : SandboxState B P) (h : s.running = false) :
    render hp hpo now s = (s, []) := by
  unfold render
  rw [h]
  simp

/-- Any sequence of render callbacks on a non-running sandbox is a no-op. -/
theorem renderSeq_stopped {B P : Type} (hp hpo : Bool) (nows : List Int)
    (s : SandboxState B P) (h : s.running = false) :
    renderSeq hp hpo nows s = (s, []) := by
  induction nows with
  | nil => rfl
  | cons n ns ih =>
    simp only [renderSeq, render_stopped hp hpo n s h, ih]
    rfl

end Sandbox

/-! ### The claims -/

/-- C1: vertices, colors and matrices are accumulated into fixed-capacity
buffers and uploaded only when the capacity threshold is hit: over every
sequence of public calls starting from a fresh object, the buffered
coordinate count never exceeds `RenderLine.MAX_VERTICES = 1024` scalars
(512 vertex pairs) respectively `RenderPoint.MAX_VERTICES = 512`, every
typed-array store lands strictly below the capacity, and when the buffer
is full and a further vertex is to be written, the buffer is flushed (its
upload is the first emitted effect) before the write. -/
theorem claim_C1 {A M : Type} (a0 : A) (ops : List (RenderLine.Op A M))
    (pops : List (RenderPoint.Op A)) (m : M) (p v : Vec2 A)
    (ps : List (Vec2 A)) (c : Color A)
    (s : RenderLine.State A M) (q : RenderPoint.State A) :
    (RenderLine.runOps (RenderLine.init a0) ops).1.count ≤ RenderLine.MAX_VERTICES ∧
    (∀ ev ∈ (RenderLine.runOps (RenderLine.init a0) ops).2, RenderLine.REvBound ev) ∧
    (RenderPoint.runOps (RenderPoint.init a0) pops).1.count ≤ RenderPoint.MAX_VERTICES ∧
    (∀ ev ∈ (RenderPoint.runOps (RenderPoint.init a0) pops).2, RenderPoint.PEvBound ev) ∧
    (RenderLine.Inv s → s.count = RenderLine.MAX_VERTICES →
      (RenderLine.addVertices m (p :: ps) c s).2.head? =
        some (REv.upload s.matrices s.count)) ∧
    (q.count = RenderPoint.MAX_VERTICES →
      (RenderPoint.vertex v c q).2.head? = some (RenderPoint.PEv.upload q.count)) := by
  refine ⟨?_, ?_, ?_, ?_, ?_, ?_⟩
  · exact (RenderLine.runOps_spec ops _ (RenderLine.init_inv a0)).1.1
  · exact (RenderLine.runOps_spec ops _ (RenderLine.init_inv a0)).2
  · exact (RenderPoint.runOps_point_spec pops _ (RenderPoint.init_point_inv a0)).1.1
  · exact (RenderPoint.runOps_point_spec pops _ (RenderPoint.init_point_inv a0)).2
  · intro h hmax
    exact RenderLine.addVertices_flush_first m p ps c s h hmax
  · intro hmax
    exact RenderPoint.vertex_flush_first v c q hmax

/-- C1 witness: a full line buffer (1024 scalars, one entry covering all
512 pairs) and a full point buffer flush first on the next write. -/
theorem claim_C1_witness :
    (RenderLine.addVertices () ([⟨0, 0⟩] : List (Vec2 ℚ)) (fun _ => 0)
        ⟨fun _ => 0, fun _ => 0, 1024, [⟨(), 0, 512⟩]⟩).2.head? =
      some (REv.upload [⟨(), 0, 512⟩] 1024) ∧
    (RenderPoint.vertex (⟨0, 0⟩ : Vec2 ℚ) (fun _ => 0)
        ⟨fun _ => 0, fun _ => 0, 512⟩).2.head? =
      some (RenderPoint.PEv.upload 512) := by
  constructor
  · exact (claim_C1 (0 : ℚ) ([] : List (RenderLine.Op ℚ Unit)) [] () ⟨0, 0⟩ ⟨0, 0⟩ []
      (fun _ => 0) ⟨fun _ => 0, fun _ => 0, 1024, [⟨(), 0, 512⟩]⟩
      ⟨fun _ => 0, fun _ => 0, 512⟩).2.2.2.2.1
      (by refine ⟨by norm_num [RenderLine.MAX_VERTICES, RenderLine.MAX_MATRICES], by norm_num, ?_, ?_⟩
          · exact ⟨rfl, trivial⟩
          · rfl)
      (by rfl)
  · exact (claim_C1 (0 : ℚ) ([] : List (RenderLine.Op ℚ Unit)) [] () ⟨0, 0⟩ ⟨0, 0⟩ []
      (fun _ => 0) ⟨fun _ => 0, fun _ => 0, 1024, [⟨(), 0, 512⟩]⟩
      ⟨fun _ => 0, fun _ => 0, 512⟩).2.2.2.2.2 (by rfl)

/-- C2: every flush clears the per-frame buffers, also on the early-return
branches: after `RenderLine.flush` on any reachable state both the vertex
cursor and the matrix-entry list are empty, after `RenderPoint.flush` on
any state the vertex cursor is 0, and after `RenderText.flush` on any state
the pending text list is empty and the vertical print offset is reset
to 0. -/
theorem claim_C2 {A M : Type} [Zero A] (a0 : A) (ops : List (RenderLine.Op A M))
    (q : RenderPoint.State A) (t : RenderText.State A) :
    (RenderLine.flush (RenderLine.runOps (RenderLine.init a0) ops).1).1.count = 0 ∧
    (RenderLine.flush (RenderLine.runOps (RenderLine.init a0) ops).1).1.matrices = [] ∧
    (RenderPoint.flush q).1.count = 0 ∧
    (RenderText.flush t).1.texts = [] ∧
    (RenderText.flush t).1.yOffset = 0 := by
  have hInv := (RenderLine.runOps_spec ops _ (RenderLine.init_inv a0)).1
  refine ⟨(RenderLine.flush_clears _ hInv).1, (RenderLine.flush_clears _ hInv).2, ?_, rfl, rfl⟩
  unfold RenderPoint.flush
  by_cases h0 : q.count = 0
  · simp [h0]
  · simp [h0]

/-- C7: between two flushes the recorded `(matrix, offset, count)` entries
partition the buffered vertex pairs: on every reachable state the entries
tile the buffer contiguously from offset 0 (hence are in order and
pairwise disjoint), each entry range lies within the buffered region, and
the entry counts sum to the total number of buffered pairs. -/
theorem claim_C7 {A M : Type} (a0 : A) (ops : List (RenderLine.Op A M)) :
    RenderLine.chain 0 (RenderLine.runOps (RenderLine.init a0) ops).1.matrices ∧
    RenderLine.total (RenderLine.runOps (RenderLine.init a0) ops).1.matrices =
      (RenderLine.runOps (RenderLine.init a0) ops).1.count / 2 ∧
    (∀ e ∈ (RenderLine.runOps (RenderLine.init a0) ops).1.matrices,
      e.offset + e.count ≤ (RenderLine.runOps (RenderLine.init a0) ops).1.count / 2) ∧
    (RenderLine.runOps (RenderLine.init a0) ops).1.count ≤ RenderLine.MAX_VERTICES := by
  obtain ⟨⟨h1, h2, h3, h4⟩, -⟩ := RenderLine.runOps_spec ops _ (RenderLine.init_inv a0)
  refine ⟨h3, h4, ?_, h1⟩
  intro e he
  have hb := RenderLine.chain_entry_le _ 0 h3 e he
  omega

/-- C3: shader error handling is exactly null-return plus console logging:
`loadShader` returns null (after logging and deleting the shader) exactly
when the compile status check fails and otherwise returns the created
shader with no effects; `initShaderProgram` returns null exactly when the
link status check fails, logging once after the attach/link effects, and
otherwise returns the linked program with no further effects. -/
theorem claim_C3 {Sh Pr : Type} (gl : WebGL Sh Pr) (ty : Nat) (src vs fs : String) :
    ((loadShader gl ty src).1 = none ↔
      gl.compileStatus (gl.createShader ty) src = false) ∧
    (gl.compileStatus (gl.createShader ty) src = true →
      loadShader gl ty src = (some (gl.createShader ty), [])) ∧
    (gl.compileStatus (gl.createShader ty) src = false →
      loadShader gl ty src =
        (none,
         [GLEv.consoleError ("An error occurred compiling the shaders: " ++
            gl.shaderInfoLog (gl.createShader ty)),
          GLEv.deleteShader (gl.createShader ty)])) ∧
    ((initShaderProgram gl vs fs).1 = none ↔
      gl.linkStatus gl.createProgram (loadShader gl VERTEX_SHADER vs).1
        (loadShader gl FRAGMENT_SHADER fs).1 = false) ∧
    (gl.linkStatus gl.createProgram (loadShader gl VERTEX_SHADER vs).1
        (loadShader gl FRAGMENT_SHADER fs).1 = true →
      initShaderProgram gl vs fs =
        (some gl.createProgram,
         (loadShader gl VERTEX_SHADER vs).2 ++ (loadShader gl FRAGMENT_SHADER fs).2 ++
           [GLEv.attachShader gl.createProgram (loadShader gl VERTEX_SHADER vs).1,
            GLEv.attachShader gl.createProgram (loadShader gl FRAGMENT_SHADER fs).1,
            GLEv.linkProgram gl.createProgram])) ∧
    (gl.linkStatus gl.createProgram (loadShader gl VERTEX_SHADER vs).1
        (loadShader gl FRAGMENT_SHADER fs).1 = false →
      initShaderProgram gl vs fs =
        (none,
         ((loadShader gl VERTEX_SHADER vs).2 ++ (loadShader gl FRAGMENT_SHADER fs).2 ++
           [GLEv.attachShader gl.createProgram (loadShader gl VERTEX_SHADER vs).1,
            GLEv.attachShader gl.createProgram (loadShader gl FRAGMENT_SHADER fs).1,
            GLEv.linkProgram gl.createProgram]) ++
          [GLEv.consoleError ("Unable to initialize the shader program: " ++
            gl.programInfoLog gl.createProgram)])) := by
  refine ⟨?_, ?_, ?_, ?_, ?_, ?_⟩
  · cases hcs : gl.compileStatus (gl.createShader ty) src with
    | true => simp [loadShader, hcs]
    | false => simp [loadShader, hcs]
  · intro h
    simp [loadShader, h]
  · intro h
    simp [loadShader, h]
  · cases hls : gl.linkStatus gl.createProgram (loadShader gl VERTEX_SHADER vs).1
        (loadShader gl FRAGMENT_SHADER fs).1 with
    | true => simp [initShaderProgram, hls]
    | false => simp [initShaderProgram, hls]
  · intro h
    simp [initShaderProgram, h]
  · intro h
    simp [initShaderProgram, h]

/-- C3 witness: a context whose compile and link status checks always fail
makes both functions return null with the documented logging effects. -/
theorem claim_C3_witness :
    loadShader (⟨fun _ => 0, fun _ _ => false, fun _ => "log", 0,
        fun _ _ _ => false, fun _ => "plog"⟩ : WebGL Nat Nat) 35633 "v" =
      (none,
       [GLEv.consoleError ("An error occurred compiling the shaders: " ++ "log"),
        GLEv.deleteShader 0]) ∧
    (initShaderProgram (⟨fun _ => 0, fun _ _ => false, fun _ => "log", 0,
        fun _ _ _ => false, fun _ => "plog"⟩ : WebGL Nat Nat) "v" "f").1 = none := by
  constructor
  · exact (claim_C3 (⟨fun _ => 0, fun _ _ => false, fun _ => "log", 0,
      fun _ _ _ => false, fun _ => "plog"⟩ : WebGL Nat Nat) 35633 "v" "v" "f").2.2.1 rfl
  · exact (claim_C3 (⟨fun _ => 0, fun _ _ => false, fun _ => "log", 0,
      fun _ _ _ => false, fun _ => "plog"⟩ : WebGL Nat Nat) 35633 "v" "v" "f").2.2.2.1.mpr rfl

/-- C4: pause and single-step semantics of `Test`: while paused with no
pending request, `step` neither advances the world nor changes the state;
when a step is pending, the next `step` advances the world exactly once and
clears the flag; and over any operation sequence starting with no pending
request, the number of world steps taken while paused never exceeds the
number of `makeStep` calls. -/
theorem claim_C4 {B P : Type} [DecidableEq B] (hl : Bool) (t1 t2 : Int)
    (s1 s2 s0 : TestState B P) (ops : List (Test.Op B P))
    (hp : s1.isPause = true) (hm1 : s1.shouldMakeStep = false)
    (hm2 : s2.shouldMakeStep = true) (h0 : s0.shouldMakeStep = false) :
    Test.step t1 s1 = (s1, []) ∧
    (Test.step t2 s2).2 = [TestEv.worldStep t2] ∧
    (Test.step t2 s2).1.shouldMakeStep = false ∧
    Test.pausedWorldSteps hl s0 ops ≤ Test.makeStepCount ops := by
  refine ⟨?_, ?_, ?_, ?_⟩
  · unfold Test.step
    rw [hp, hm1]
    rfl
  · unfold Test.step
    rw [hm2]
    simp
  · unfold Test.step
    rw [hm2]
    simp
  · have hb := Test.pausedWorldSteps_bound hl ops s0
    rw [h0] at hb
    simpa using hb

/-- C4 witness: a paused test with no pending step is inert; with a
pending step it advances the world once; a paused trace with three `step`
calls but one `makeStep` performs at most one world step. -/
theorem claim_C4_witness :
    Test.step 5 (⟨true, false, []⟩ : TestState Nat Nat) = (⟨true, false, []⟩, []) ∧
    (Test.step 7 (⟨true, true, []⟩ : TestState Nat Nat)).2 = [TestEv.worldStep 7] ∧
    (Test.step 7 (⟨true, true, []⟩ : TestState Nat Nat)).1.shouldMakeStep = false ∧
    Test.pausedWorldSteps true (⟨true, false, []⟩ : TestState Nat Nat)
        [Test.Op.step 1, Test.Op.makeStep, Test.Op.step 2, Test.Op.step 3] ≤
      Test.makeStepCount
        ([Test.Op.step 1, Test.Op.makeStep, Test.Op.step 2, Test.Op.step 3] :
          List (Test.Op Nat Nat)) :=
  claim_C4 true 5 7 ⟨true, false, []⟩ ⟨true, true, []⟩ ⟨true, false, []⟩
    [Test.Op.step 1, Test.Op.makeStep, Test.Op.step 2, Test.Op.step 3]
    rfl rfl rfl rfl

/-- C5: one running render callback performs, in order: the optional
`preStep` action, the test step with the elapsed time `now - past`
(storing `past := now`), the optional `postStep` action, the frame clear,
the test draw with the elapsed time, and the request for the next
animation frame. -/
theorem claim_C5 {B P : Type} (hp hpo : Bool) (now : Int) (s : SandboxState B P)
    (hrun : s.running = true) :
    Sandbox.render hp hpo now s =
      ({ past := now, running := true,
         test := (Test.draw (now - s.past) (Test.step (now - s.past) s.test).1).1 },
       (if hp then [SEv.preStep now] else []) ++
         SEv.testStep (now - s.past) ::
           ((if hpo then [SEv.postStep] else []) ++
             [SEv.clearFrame, SEv.testDraw (now - s.past), SEv.requestFrame])) := by
  unfold Sandbox.render
  rw [hrun]
  simp

/-- C5 witness: a concrete running sandbox advances `past` and emits the
documented effect sequence. -/
theorem claim_C5_witness :
    Sandbox.render true true 10 (⟨3, true, ⟨false, false, []⟩⟩ : SandboxState Nat Nat) =
      (⟨10, true, ⟨false, false, []⟩⟩,
       [SEv.preStep 10, SEv.testStep (10 - 3), SEv.postStep, SEv.clearFrame,
        SEv.testDraw (10 - 3), SEv.requestFrame]) := by
  have h := claim_C5 true true 10 (⟨3, true, ⟨false, false, []⟩⟩ : SandboxState Nat Nat) rfl
  simpa using h

/-- C6: cancellation is exactly stopping the callback loop: after `stop`
the running flag is false and any sequence of subsequent render callbacks
leaves the state unchanged and performs no effect (no step, draw or
rescheduling), while `run` sets the flag and requests a new frame. -/
theorem claim_C6 {B P : Type} (hp hpo : Bool) (nows : List Int)
    (s : SandboxState B P) :
    (Sandbox.stop s).running = false ∧
    Sandbox.renderSeq hp hpo nows (Sandbox.stop s) = (Sandbox.stop s, []) ∧
    (Sandbox.run s).1.running = true ∧
    (Sandbox.run s).2 = [SEv.requestFrame] :=
  ⟨rfl, Sandbox.renderSeq_stopped hp hpo nows _ rfl, rfl, rfl⟩

/-- C8: the contact list is duplicate-free per body pair, and `draw`
empties it after drawing the buffered contact points: on every reachable
state no two buffered contacts share a `(bodyA, bodyB)` pair, and `draw`
returns an empty contact list after emitting one point-draw per buffered
contact. -/
theorem claim_C8 {B P : Type} [DecidableEq B] (hl : Bool)
    (ops : List (Test.Op B P)) (t : Int) (s : TestState B P) :
    Test.PairwiseContacts (Test.runOps hl Test.init ops).1.contacts ∧
    (Test.draw t s).1.contacts = [] ∧
    (Test.draw t s).2 =
      TestEv.drawDebugData :: TestEv.drawHelp t :: TestEv.debugFlush ::
        s.contacts.map (fun c => TestEv.drawPoint c.point) :=
  ⟨Test.runOps_pairwise hl ops Test.init List.Pairwise.nil, rfl, rfl⟩

/-! ### No-flush characterisation of `addVertices` and the circle outline -/

namespace RenderLine

/-- Away from the capacity boundary, one loop iteration just stores the two
coordinates. -/
theorem addVerticesStep_no_flush {A M : Type} (matrix : M) (color : Color A)
    (p : Vec2 A) (i last : Nat) (s : State A M)
    (hlt : ¬s.count = MAX_VERTICES) :
    (addVerticesStep matrix color p i last s).1.count = s.count + 2 ∧
    (addVerticesStep matrix color p i last s).1.matrices = s.matrices ∧
    (addVerticesStep matrix color p i last s).2.1 = last ∧
    (addVerticesStep matrix color p i last s).2.2 =
      [REv.write s.count p.x, REv.write (s.count + 1) p.y] := by
  refine ⟨?_, ?_, ?_, ?_⟩ <;> simp [addVerticesStep, hlt]

/-- When the whole point list fits in the remaining capacity, the loop
stores every coordinate in order, touches no matrix entry, and keeps
`lastVertices`. -/
theorem addVerticesLoop_no_flush {A M : Type} (matrix : M) (color : Color A) :
    ∀ (ps : List (Vec2 A)) (i last : Nat) (s : State A M),
      s.count + 2 * ps.length ≤ MAX_VERTICES →
      (addVerticesLoop matrix color ps i last s).1.count = s.count + 2 * ps.length ∧
      (addVerticesLoop matrix color ps i last s).1.matrices = s.matrices ∧
      (addVerticesLoop matrix color ps i last s).2.1 = last ∧
      (addVerticesLoop matrix color ps i last s).2.2 = writeEvents s.count ps := by
  intro ps
  induction ps with
  | nil =>
    intro i last s h
    simp [addVerticesLoop, writeEvents]
  | cons p rest ih =>
    intro i last s h
    have hlen : (p :: rest).length = rest.length + 1 := List.length_cons p rest
    have hlt : ¬s.count = MAX_VERTICES := by
      rw [hlen] at h
      omega
    obtain ⟨e1, e2, e3, e4⟩ := addVerticesStep_no_flush matrix color p i last s hlt
    obtain ⟨k1, k2, k3, k4⟩ := ih (i + 1) (addVerticesStep matrix color p i last s).2.1
      (addVerticesStep matrix color p i last s).1 (by rw [e1]; rw [hlen] at h; omega)
    simp only [addVerticesLoop]
    refine ⟨?_, ?_, ?_, ?_⟩
    · rw [k1, e1, hlen]
      ring
    · rw [k2, e2]
    · rw [k3, e3]
    · rw [k4, e4, e1]
      simp only [writeEvents]
      rfl

/-- When the whole point list fits in the remaining capacity, `addVertices`
appends it, records one matrix entry covering exactly that range, and emits
one write per coordinate. -/
theorem addVertices_no_flush {A M : Type} (matrix : M) (ps : List (Vec2 A))
    (color : Color A) (s : State A M)
    (h : s.count + 2 * ps.length ≤ MAX_VERTICES) :
    (addVertices matrix ps color s).1.count = s.count + 2 * ps.length ∧
    (addVertices matrix ps color s).1.matrices =
      s.matrices ++ [⟨matrix, s.count / 2, ps.length⟩] ∧
    (addVertices matrix ps color s).2 = writeEvents s.count ps := by
  obtain ⟨l1, l2, l3, l4⟩ := addVerticesLoop_no_flush matrix color ps 0 s.count s h
  unfold addVertices
  refine ⟨by simpa using l1, ?_, by simpa using l4⟩
  have hcnt : ((addVerticesLoop matrix color ps 0 s.count s).1.count - s.count) / 2 =
      ps.length := by
    rw [l1]
    omega
  simp only [l2, l3, hcnt]

end RenderLine

namespace DebugDraw

/-- Unfolding of the perimeter point at a successor index. -/
theorem circlePoint_succ {A : Type} [Field A] (c s : A → A) (pi : A) (j : Nat) :
    circlePoint c s pi (j + 1) =
      ⟨c (2 * pi / (CIRCLE_SEGMENT : A) * ((j + 1 : Nat) : A) + pi / 2),
       s (2 * pi / (CIRCLE_SEGMENT : A) * ((j + 1 : Nat) : A) + pi / 2)⟩ := rfl

/-- The loop of `drawCircle` produces exactly the chords between
consecutive perimeter points. -/
theorem circleSegs_eq {A : Type} [Field A] (c s : A → A) (pi : A) :
    ∀ (n j : Nat),
      circleSegs c s pi (circlePoint c s pi j) (j + 1) n =
        (List.range n).flatMap
          (fun k => [circlePoint c s pi (j + k), circlePoint c s pi (j + k + 1)]) := by
  intro n
  induction n with
  | zero =>
    intro j
    simp [circleSegs]
  | succ n ih =>
    intro j
    rw [List.range_succ_eq_map]
    simp only [circleSegs, List.flatMap_cons, List.flatMap_map]
    rw [← circlePoint_succ c s pi j]
    have hrec := ih (j + 1)
    rw [hrec]
    simp only [Nat.add_zero, List.cons_append, List.nil_append, Function.comp]
    refine congrArg (fun l => circlePoint c s pi j :: circlePoint c s pi (j + 1) :: l) ?_
    refine congrArg (List.range n).flatMap ?_
    funext k
    have h1 : j + 1 + k = j + (k + 1) := by omega
    rw [h1]

/-- The point list built by `drawCircle` is the chord list. -/
theorem circleSegs_chordList {A : Type} [Field A] (c s : A → A) (pi : A) (n : Nat) :
    circleSegs c s pi ⟨c (pi / 2), s (pi / 2)⟩ 1 n = chordList c s pi n := by
  have h := circleSegs_eq c s pi n 0
  have h0 : circlePoint c s pi 0 = (⟨c (pi / 2), s (pi / 2)⟩ : Vec2 A) := rfl
  rw [h0] at h
  simp only [Nat.zero_add] at h
  unfold chordList
  exact h

/-- The chord list has two endpoints per segment. -/
theorem chordList_length {A : Type} [Field A] (c s : A → A) (pi : A) (n : Nat) :
    (chordList c s pi n).length = 2 * n := by
  induction n with
  | zero => rfl
  | succ n ih =>
    unfold chordList at ih ⊢
    rw [List.range_succ, List.flatMap_append, List.length_append, ih]
    simp [Nat.mul_succ]

end DebugDraw

/-- Splitting the write events of a concatenated vertex list. -/
theorem writeEvents_append {A M : Type} :
    ∀ (xs ys : List (Vec2 A)) (i : Nat),
      (writeEvents i (xs ++ ys) : List (REv A M)) =
        writeEvents i xs ++ writeEvents (i + 2 * xs.length) ys := by
  intro xs
  induction xs with
  | nil =>
    intro ys i
    simp [writeEvents]
  | cons x xs ih =>
    intro ys i
    simp only [List.cons_append, writeEvents, List.append_eq, ih, List.length_cons]
    have harith : i + 2 + 2 * xs.length = i + 2 * (xs.length + 1) := by ring
    rw [harith]

/-- C9: `drawCircle` buffers exactly `2 * CIRCLE_SEGMENT + 2 = 66` vertices
as line endpoints into an empty line buffer — the radius line from the
circle center to the first perimeter point, followed by the
`CIRCLE_SEGMENT = 32` chords between consecutive perimeter points, the last
of which returns to the starting angle (closing the perimeter when the
trigonometric functions are `2 pi`-periodic) — recorded under exactly two
matrix entries carrying the same model matrix built by translating to the
position, rotating by the angle and scaling by the radius. -/
theorem claim_C9 {A : Type} [Field A] (c s : A → A) (pi : A)
    (position : Vec2 A) (angle radius : A) (color : Color A)
    (L : RenderLine.State A (Mat4 A)) (hc : L.count = 0) (hm : L.matrices = [])
    (hcper : ∀ x, c (x + 2 * pi) = c x) (hsper : ∀ x, s (x + 2 * pi) = s x)
    (h32 : ((DebugDraw.CIRCLE_SEGMENT : Nat) : A) ≠ 0) :
    (DebugDraw.drawCircle c s pi position angle radius color L).1.count =
      2 * (2 * DebugDraw.CIRCLE_SEGMENT + 2) ∧
    2 * DebugDraw.CIRCLE_SEGMENT + 2 = 66 ∧
    (DebugDraw.drawCircle c s pi position angle radius color L).1.matrices =
      [⟨Mat4.scale (Mat4.rotate (Mat4.translate Mat4.new position.x position.y) angle)
          radius radius 1, 0, 2⟩,
       ⟨Mat4.scale (Mat4.rotate (Mat4.translate Mat4.new position.x position.y) angle)
          radius radius 1, 2, 2 * DebugDraw.CIRCLE_SEGMENT⟩] ∧
    (DebugDraw.drawCircle c s pi position angle radius color L).2 =
      writeEvents 0 (⟨0, 0⟩ :: DebugDraw.circlePoint c s pi 0 ::
        DebugDraw.chordList c s pi DebugDraw.CIRCLE_SEGMENT) ∧
    DebugDraw.circlePoint c s pi DebugDraw.CIRCLE_SEGMENT =
      DebugDraw.circlePoint c s pi 0 := by
  obtain ⟨lv, lc, lcount, lmat⟩ := L
  dsimp only at hc hm
  subst hc
  subst hm
  have hhead : (DebugDraw.chordList c s pi DebugDraw.CIRCLE_SEGMENT).headD
      (⟨0, 0⟩ : Vec2 A) = DebugDraw.circlePoint c s pi 0 := rfl
  have hlen := DebugDraw.chordList_length c s pi DebugDraw.CIRCLE_SEGMENT
  have hCS : DebugDraw.CIRCLE_SEGMENT = 32 := rfl
  obtain ⟨a1, a2, a3⟩ := RenderLine.addVertices_no_flush
    (Mat4.scale (Mat4.rotate (Mat4.translate Mat4.new position.x position.y) angle)
      radius radius 1)
    [⟨0, 0⟩, DebugDraw.circlePoint c s pi 0] color
    (⟨lv, lc, 0, []⟩ : RenderLine.State A (Mat4 A))
    (by simp [RenderLine.MAX_VERTICES, RenderLine.MAX_MATRICES])
  obtain ⟨b1, b2, b3⟩ := RenderLine.addVertices_no_flush
    (Mat4.scale (Mat4.rotate (Mat4.translate Mat4.new position.x position.y) angle)
      radius radius 1)
    (DebugDraw.chordList c s pi DebugDraw.CIRCLE_SEGMENT) color
    (RenderLine.addVertices
      (Mat4.scale (Mat4.rotate (Mat4.translate Mat4.new position.x position.y) angle)
        radius radius 1)
      [⟨0, 0⟩, DebugDraw.circlePoint c s pi 0] color
      (⟨lv, lc, 0, []⟩ : RenderLine.State A (Mat4 A))).1
    (by
      rw [a1, hlen, hCS]
      simp [RenderLine.MAX_VERTICES, RenderLine.MAX_MATRICES])
  simp only [DebugDraw.drawCircle, DebugDraw.circleSegs_chordList, hhead]
  refine ⟨?_, by rw [hCS], ?_, ?_, ?_⟩
  · rw [b1, a1, hlen]
    simp
    ring
  · rw [b2, a2, a1, hlen]
    simp
  · rw [b3, a3, a1]
    have hsplit := writeEvents_append (M := Mat4 A)
      ([⟨0, 0⟩, DebugDraw.circlePoint c s pi 0] : List (Vec2 A))
      (DebugDraw.chordList c s pi DebugDraw.CIRCLE_SEGMENT) 0
    norm_num at hsplit ⊢
    rw [← hsplit]
  · have h1 : DebugDraw.circlePoint c s pi DebugDraw.CIRCLE_SEGMENT =
        ⟨c (2 * pi / ((DebugDraw.CIRCLE_SEGMENT : Nat) : A) * ((32 : Nat) : A) + pi / 2),
         s (2 * pi / ((DebugDraw.CIRCLE_SEGMENT : Nat) : A) * ((32 : Nat) : A) + pi / 2)⟩ :=
      rfl
    have harg : 2 * pi / ((DebugDraw.CIRCLE_SEGMENT : Nat) : A) * ((32 : Nat) : A) + pi / 2
        = pi / 2 + 2 * pi := by
      have h32x : ((32 : Nat) : A) ≠ 0 := h32
      rw [show ((DebugDraw.CIRCLE_SEGMENT : Nat) : A) = ((32 : Nat) : A) from rfl]
      rw [div_mul_cancel₀ _ h32x]
      ring
    rw [h1, harg, hcper, hsper]
    rfl

/-- C9 witness: a concrete instantiation over the rationals with flushed
buffer and trivially periodic trigonometric functions. -/
theorem claim_C9_witness :
    (DebugDraw.drawCircle (fun _ => (0 : ℚ)) (fun _ => 0) 0 ⟨0, 0⟩ 0 1 (fun _ => 0)
        (RenderLine.init 0)).1.count = 2 * (2 * DebugDraw.CIRCLE_SEGMENT + 2) ∧
    DebugDraw.circlePoint (fun _ => (0 : ℚ)) (fun _ => 0) 0 DebugDraw.CIRCLE_SEGMENT =
      DebugDraw.circlePoint (fun _ => (0 : ℚ)) (fun _ => 0) 0 0 := by
  have h := claim_C9 (fun _ => (0 : ℚ)) (fun _ => 0) 0 ⟨0, 0⟩ 0 1 (fun _ => 0)
    (RenderLine.init 0) rfl rfl (fun x => rfl) (fun x => rfl)
    (by norm_num [DebugDraw.CIRCLE_SEGMENT])
  exact ⟨h.1, h.2.2.2.2⟩

end Classic2dSandbox
